import Mathlib

/-!
Verification development for the Mantle no-code agent builder, core file
src/agent/main.py: the tool catalog, the flow compiler embedded in
build_system_prompt and chat_with_agent, the tool invoker execute_tool, and
the conversation driver process_agent_conversation.

Modelling conventions.
- JSON argument objects are modelled as insertion-ordered association lists
  with string values (Params); the orchestration code only ever inspects
  keys and the address string, never other value shapes.
- The LLM provider is an oracle giving the reply of each loop iteration
  (a function from the iteration index to a ModelReply); since the oracle is
  universally quantified, every possible sequence of provider replies,
  however it may depend on the conversation, is covered by some oracle.
  A reply whose arguments string is not valid JSON is modelled by args = none
  (json.loads raises on it).
- The network is an oracle from (url, method, optional JSON body) to either a
  decoded 2xx JSON body or a requests.RequestException message; the latter
  covers timeouts, refused connections, non-2xx statuses raised by
  raise_for_status, and undecodable bodies.
- Python exceptions escaping a function are modelled with Except.error.
- Python set iteration order is unspecified; the embedding uses first-seen
  insertion order for the unique-tools set, which only affects prompt text
  and which unknown tool is named first, never membership.
- Python truthiness of strings is modelled faithfully: an empty string is
  falsy, so a next_tool or private_key equal to some "" behaves as absent.
-/

/-- Parameter mapping of one tool call: a JSON object, keys to string values. -/
abbrev Params : Type := List (String × String)

/-- Association-list lookup, first binding wins (Python dict lookup). -/
def plookup {α : Type} : List (String × α) → String → Option α
  | [], _ => none
  | (k, v) :: rest, key => if k = key then some v else plookup rest key

/-- Key membership test on a mapping (Python `in` on a dict). -/
def hasKey {α : Type} (l : List (String × α)) (k : String) : Bool :=
  (plookup l k).isSome

/-- Python dict assignment m[k] = v : overwrite the first binding of the key
in place (keys are unique in a dict), otherwise append it at the end, keeping
insertion order. -/
def dictSet {α : Type} : List (String × α) → String → α → List (String × α)
  | [], k, v => [(k, v)]
  | (a, b) :: rest, k, v =>
    if a = k then (k, v) :: rest else (a, b) :: dictSet rest k v

/-- Python set.add modelled on an insertion-ordered duplicate-free list. -/
def addUnique (l : List String) (x : String) : List String :=
  if x ∈ l then l else l ++ [x]

/-- Does the character list start with the pattern. -/
def chStart : List Char → List Char → Bool
  | [], _ => true
  | _ :: _, [] => false
  | p :: ps, c :: cs => p == c && chStart ps cs

/-- Does the character list contain the pattern as a contiguous run. -/
def chHas (pat : List Char) : List Char → Bool
  | [] => chStart pat []
  | c :: cs => chStart pat (c :: cs) || chHas pat cs

/-- Python substring containment `pat in s`. -/
def strHas (s pat : String) : Bool :=
  chHas pat.data s.data

/-- Fuelled character-by-character replacement of every occurrence of a
non-empty pattern, scanning left to right (Python str.replace). -/
def chReplace (pat rep : List Char) : Nat → List Char → List Char
  | _, [] => []
  | 0, l => l
  | fuel + 1, c :: cs =>
    if !pat.isEmpty && chStart pat (c :: cs) then
      rep ++ chReplace pat rep fuel (List.drop (pat.length - 1) cs)
    else
      c :: chReplace pat rep fuel cs

/-- Python str.replace for a non-empty pattern. -/
def strReplace (s pat rep : String) : String :=
  String.mk (chReplace pat.data rep.data s.data.length s.data)

/-- Python truthiness of an optional string: None and the empty string are
falsy, everything else truthy. -/
def strTruthy : Option String → Bool
  | none => false
  | some s => if s = "" then false else true

/-- Static catalog entry: one tool of TOOL_DEFINITIONS. Parameter schemas are
kept as the ordered list of property names plus the required names; the
orchestration code never reads the per-property type or description. -/
structure ToolDef where
  name : String
  description : String
  properties : List String
  required : List String
  endpoint : String
  method : String
deriving DecidableEq

/-- The static tool catalog of src/agent/main.py lines 17 to 168, in source
order. The path placeholder in the get_balance endpoint is the literal
brace-address-brace segment. -/
def TOOL_DEFINITIONS : List (String × ToolDef) := [
  ("transfer",
    ⟨"transfer",
     "Transfer tokens from one address to another. Requires privateKey, toAddress, amount, and tokenAddress.",
     ["privateKey", "toAddress", "amount", "tokenAddress"],
     ["privateKey", "toAddress", "amount", "tokenAddress"],
     "https://mantlebackend-739298578243.us-central1.run.app/transfer",
     "POST"⟩),
  ("swap",
    ⟨"swap",
     "Swap one token for another. Requires privateKey, tokenIn, tokenOut, amountIn, and slippageTolerance.",
     ["privateKey", "tokenIn", "tokenOut", "amountIn", "slippageTolerance"],
     ["privateKey", "tokenIn", "tokenOut", "amountIn", "slippageTolerance"],
     "https://mantlebackend-739298578243.us-central1.run.app/swap",
     "POST"⟩),
  ("get_balance",
    ⟨"get_balance",
     "Get MNT balance of a wallet address. Requires only the wallet address.",
     ["address"],
     ["address"],
     "https://mantlebackend-739298578243.us-central1.run.app/balance/\x7baddress\x7d",
     "GET"⟩),
  ("deploy_erc20",
    ⟨"deploy_erc20",
     "Deploy a new ERC-20 token. Requires privateKey, name, symbol, and initialSupply.",
     ["privateKey", "name", "symbol", "initialSupply"],
     ["privateKey", "name", "symbol", "initialSupply"],
     "https://mantlebackend-739298578243.us-central1.run.app/deploy-token",
     "POST"⟩),
  ("deploy_erc721",
    ⟨"deploy_erc721",
     "Deploy a new ERC-721 NFT collection. Requires privateKey, name, and symbol.",
     ["privateKey", "name", "symbol"],
     ["privateKey", "name", "symbol"],
     "https://mantlebackend-739298578243.us-central1.run.app/create-nft-collection",
     "POST"⟩),
  ("create_dao",
    ⟨"create_dao",
     "Create a new DAO (Decentralized Autonomous Organization). Requires privateKey, name, votingPeriod, and quorumPercentage.",
     ["privateKey", "name", "votingPeriod", "quorumPercentage"],
     ["privateKey", "name", "votingPeriod", "quorumPercentage"],
     "https://mantlebackend-739298578243.us-central1.run.app/create-dao",
     "POST"⟩),
  ("airdrop",
    ⟨"airdrop",
     "Airdrop tokens to multiple recipients. Requires privateKey, recipients (list of addresses), and amount per recipient.",
     ["privateKey", "recipients", "amount"],
     ["privateKey", "recipients", "amount"],
     "https://mantlebackend-739298578243.us-central1.run.app/airdrop",
     "POST"⟩),
  ("fetch_price",
    ⟨"fetch_price",
     "Fetch the current price of any cryptocurrency or token. Requires a query string.",
     ["query"],
     ["query"],
     "https://mantlebackend-739298578243.us-central1.run.app/token-price",
     "POST"⟩),
  ("deposit_yield",
    ⟨"deposit_yield",
     "Create a deposit with yield prediction. Requires privateKey, tokenAddress, depositAmount, and apyPercent.",
     ["privateKey", "tokenAddress", "depositAmount", "apyPercent"],
     ["privateKey", "tokenAddress", "depositAmount", "apyPercent"],
     "https://mantlebackend-739298578243.us-central1.run.app/yield",
     "POST"⟩),
  ("wallet_analytics",
    ⟨"wallet_analytics",
     "Get wallet analytics including ERC-20 token balances. Requires wallet address.",
     ["address"],
     ["address"],
     "https://mantlebackend-739298578243.us-central1.run.app/api/balance/erc20",
     "POST"⟩)]

/-- Catalog lookup TOOL_DEFINITIONS[name] as an option. -/
def lookupTD (name : String) : Option ToolDef :=
  plookup TOOL_DEFINITIONS name

/-- One declared edge of the tool graph (Pydantic model ToolConnection). -/
structure ToolConnection where
  tool : String
  next_tool : Option String
deriving DecidableEq

/-- The loop of chat_with_agent lines 425 to 429 (duplicated in
build_system_prompt lines 193 to 197): accumulate the unique-tools set and
the flow dict over the declared connections. The truthiness test on
next_tool is kept: an empty-string successor is skipped. -/
def buildToolsLoop : List ToolConnection → List String → List (String × String) →
    List String × List (String × String)
  | [], unique_tools, flow => (unique_tools, flow)
  | conn :: rest, unique_tools, flow =>
    let unique_tools := addUnique unique_tools conn.tool
    match conn.next_tool with
    | some nt =>
      if nt = "" then buildToolsLoop rest unique_tools flow
      else buildToolsLoop rest (addUnique unique_tools nt) (dictSet flow conn.tool nt)
    | none => buildToolsLoop rest unique_tools flow

/-- The available-tool set derived from the declared connections. -/
def unique_tools (conns : List ToolConnection) : List String :=
  (buildToolsLoop conns [] []).1

/-- The successor map derived from the declared connections. -/
def tool_flow (conns : List ToolConnection) : List (String × String) :=
  (buildToolsLoop conns [] []).2

/-- Dynamic system prompt of build_system_prompt, lines 186 to 247. -/
def build_system_prompt (tool_connections : List ToolConnection) : String :=
  let uts := unique_tools tool_connections
  let flow := tool_flow tool_connections
  let has_sequential := tool_connections.any (fun c => strTruthy c.next_tool)
  let base := "You are an AI agent for the Mantle blockchain platform. You help users perform blockchain operations using the tools available to you.\n\nAVAILABLE TOOLS:\n"
  let toolsTxt := uts.foldl (fun acc tn =>
    match lookupTD tn with
    | some td => acc ++ "\n- " ++ tn ++ ": " ++ td.description ++ "\n"
    | none => acc) ""
  let middle :=
    if has_sequential then
      "\n\nTOOL EXECUTION FLOW:\n" ++
      "Some tools are connected in sequence. You MUST execute them in the specified order:\n" ++
      flow.foldl (fun acc p => acc ++ "- After " ++ p.1 ++ " completes, YOU MUST IMMEDIATELY call " ++ p.2 ++ "\n") "" ++
      "\nSEQUENTIAL EXECUTION INSTRUCTIONS - CRITICAL:\n1. When tools are connected sequentially, you MUST execute ALL tools in the chain\n2. After completing one tool, IMMEDIATELY proceed to call the next tool in the sequence\n3. DO NOT wait for user confirmation between sequential tool calls\n4. Execute all sequential tools in ONE conversation turn\n5. Only provide a final summary after ALL sequential tools have been completed\n6. If you have all the required parameters for the entire sequence, execute all tools immediately\n"
    else
      "\nINSTRUCTIONS:\n1. You can perform any of the available operations based on user requests\n2. Ask for required parameters if not provided\n3. Execute the appropriate tool based on user needs\n4. Provide clear results and next steps\n"
  let rules := "\nIMPORTANT RULES:\n- Only use the tools that are available to you\n- Always ask for required parameters before making tool calls\n- Be conversational and helpful\n- If a privateKey is needed and provided in the context, use it\n- Provide transaction hashes and explorer links when available\n- Explain what each operation does in simple terms\n- For sequential executions, complete the ENTIRE chain before responding\n"
  base ++ toolsTxt ++ middle ++ rules

/-- Outcome of one outbound HTTP exchange as seen by execute_tool: either the
decoded JSON body of a 2xx response (kept opaque as a string), or the message
of the requests.RequestException covering timeout, refused connection, a
non-2xx status raised by raise_for_status, or an undecodable body. -/
inductive HttpOutcome where
  | ok (body : String)
  | err (message : String)
deriving DecidableEq

/-- Network oracle: url, HTTP method, optional JSON body. -/
abbrev Net : Type := String → String → Option Params → HttpOutcome

/-- Result record produced by execute_tool: the success dict or the failure
dict of lines 280 to 290. -/
structure ToolResult where
  success : Bool
  tool : String
  result : Option String
  error : Option String
deriving DecidableEq

/-- The URL path placeholder occurring in the get_balance endpoint. -/
def addrPat : String := "\x7baddress\x7d"

/-- Endpoint and parameter-mapping resolution of execute_tool lines 259 to
265: substitute the address into the placeholder when supplied, and for a GET
clear the whole outgoing parameter mapping. -/
def resolve_endpoint (endpoint : String) (method : String) (parameters : Params) :
    String × Params :=
  if strHas endpoint addrPat then
    match plookup parameters "address" with
    | some addr =>
      let endpoint := strReplace endpoint addrPat addr
      if method = "GET" then (endpoint, ([] : List (String × String))) else (endpoint, parameters)
    | none => (endpoint, parameters)
  else (endpoint, parameters)

/-- Tool invoker execute_tool, lines 249 to 290. A ValueError escaping the
function (unknown tool, unsupported method) is an Except.error; every
RequestException is converted into an unsuccessful ToolResult. -/
def execute_tool (net : Net) (tool_name : String) (parameters : Params) :
    Except String ToolResult :=
  match lookupTD tool_name with
  | none => Except.error ("Unknown tool: " ++ tool_name)
  | some tool_def =>
    let (endpoint, parameters) := resolve_endpoint tool_def.endpoint tool_def.method parameters
    if tool_def.method = "POST" then
      match net endpoint "POST" (some parameters) with
      | HttpOutcome.ok body => Except.ok ⟨true, tool_name, some body, none⟩
      | HttpOutcome.err e => Except.ok ⟨false, tool_name, none, some e⟩
    else if tool_def.method = "GET" then
      match net endpoint "GET" none with
      | HttpOutcome.ok body => Except.ok ⟨true, tool_name, some body, none⟩
      | HttpOutcome.err e => Except.ok ⟨false, tool_name, none, some e⟩
    else Except.error ("Unsupported HTTP method: " ++ tool_def.method)

/-- One tool-call request emitted by the model: correlation id, function
name, and the argument string already classified by json.loads: some mapping
when the arguments are valid JSON, none when json.loads would raise. -/
structure ToolCallReq where
  id : String
  name : String
  args : Option Params
deriving DecidableEq

/-- One provider reply: optional text content and the batch of requested
tool calls (an empty batch models a plain final answer). -/
structure ModelReply where
  content : Option String
  tool_calls : List ToolCallReq
deriving DecidableEq

/-- Provider oracle: the reply the model gives on the given loop iteration. -/
abbrev Llm : Type := Nat → ModelReply

/-- One message of the conversation history. -/
inductive Message where
  | system (content : String)
  | user (content : String)
  | assistant (content : Option String) (tool_calls : List ToolCallReq)
  | tool (tool_call_id : String) (content : String)
deriving DecidableEq

/-- Append-only tool-call log entry (line 377): tool name and the resolved
parameters, recorded after private-key injection. -/
structure ToolCallRec where
  tool : String
  parameters : Params
deriving DecidableEq

/-- json.dumps of a ToolResult dict, used for the tool message content. -/
def renderToolResult (r : ToolResult) : String :=
  if r.success then
    "\x7b\"success\": true, \"tool\": \"" ++ r.tool ++ "\", \"result\": " ++ r.result.getD "null" ++ "\x7d"
  else
    "\x7b\"success\": false, \"tool\": \"" ++ r.tool ++ "\", \"error\": \"" ++ r.error.getD "" ++ "\"\x7d"

/-- Private-key injection of lines 372 to 375. The truthiness test on
private_key short-circuits, so the catalog lookup (which raises KeyError on a
name absent from TOOL_DEFINITIONS) happens only for a truthy key. -/
def resolveArgs (private_key : Option String) (function_name : String)
    (function_args : Params) : Except String Params :=
  match private_key with
  | none => Except.ok function_args
  | some k =>
    if k = "" then Except.ok function_args
    else
      match lookupTD function_name with
      | none => Except.error ("KeyError: " ++ function_name)
      | some td =>
        if "privateKey" ∈ td.properties then
          if hasKey function_args "privateKey" then Except.ok function_args
          else Except.ok (function_args ++ [("privateKey", k)])
        else Except.ok function_args

/-- The per-batch loop of lines 368 to 391: for each requested call in model
order, decode the arguments, inject the private key, append the call record,
execute the tool, append the result record and the tool message. Any escaping
exception (JSONDecodeError, KeyError, ValueError) aborts the whole batch. -/
def processBatch (net : Net) (pk : Option String) :
    List ToolCallReq → List Message → List ToolCallRec → List ToolResult →
    Except String (List Message × List ToolCallRec × List ToolResult)
  | [], messages, calls, results => Except.ok (messages, calls, results)
  | tc :: rest, messages, calls, results =>
    match tc.args with
    | none => Except.error "JSONDecodeError: Expecting value"
    | some function_args =>
      match resolveArgs pk tc.name function_args with
      | Except.error e => Except.error e
      | Except.ok function_args =>
        let calls := calls ++ [⟨tc.name, function_args⟩]
        match execute_tool net tc.name function_args with
        | Except.error e => Except.error e
        | Except.ok result =>
          let results := results ++ [result]
          let messages := messages ++ [Message.tool tc.id (renderToolResult result)]
          processBatch net pk rest messages calls results

/-- Forced-continuation directive of lines 399 to 402. -/
def continuationDirective (next_tool : String) : String :=
  "IMPORTANT: You must now immediately call the " ++ next_tool ++
  " tool as it is next in the sequential flow. Do not ask for confirmation, proceed with the execution."

/-- Aggregate returned by process_agent_conversation (lines 354 to 359 and
405 to 410). -/
structure AgentResult where
  agent_response : Option String
  tool_calls : List ToolCallRec
  results : List ToolResult
  conversation_history : List Message
deriving DecidableEq

/-- Outcome of one loop iteration: a final result, or the state carried into
the next provider call. -/
inductive StepOut where
  | done (r : AgentResult)
  | next (messages : List Message) (calls : List ToolCallRec) (results : List ToolResult)
deriving DecidableEq

/-- One iteration of the conversation loop (lines 349 to 402), handling one
provider reply: a reply without tool calls finishes; otherwise the batch is
processed, and if the last executed tool (the last entry of the global call
log, line 395) has a successor in the flow, the directive message is appended
before control returns for the next provider call. -/
def agentStep (net : Net) (flow : List (String × String)) (pk : Option String)
    (reply : ModelReply) (messages : List Message)
    (calls : List ToolCallRec) (results : List ToolResult) : Except String StepOut :=
  if reply.tool_calls = [] then
    Except.ok (StepOut.done ⟨reply.content, calls, results, messages⟩)
  else
    let messages := messages ++ [Message.assistant reply.content reply.tool_calls]
    match processBatch net pk reply.tool_calls messages calls results with
    | Except.error e => Except.error e
    | Except.ok (messages, calls, results) =>
      match calls.getLast? with
      | none => Except.error "IndexError: list index out of range"
      | some last_call =>
        match plookup flow last_call.tool with
        | some next_tool =>
          Except.ok (StepOut.next (messages ++ [Message.system (continuationDirective next_tool)]) calls results)
        | none => Except.ok (StepOut.next messages calls results)

/-- Termination notice returned when the iteration cap is reached. -/
def maxIterationsText : String :=
  "Maximum iterations reached. Please try again with a simpler request."

/-- The while loop of lines 337 to 410: fuel counts the remaining iterations
(the cap minus the iterations already run), iteration indexes the provider
call handed to the oracle. -/
def agentLoop (net : Net) (llm : Llm) (flow : List (String × String)) (pk : Option String) :
    Nat → Nat → List Message → List ToolCallRec → List ToolResult → Except String AgentResult
  | 0, _, messages, calls, results =>
    Except.ok ⟨some maxIterationsText, calls, results, messages⟩
  | fuel + 1, iteration, messages, calls, results =>
    match agentStep net flow pk (llm iteration) messages calls results with
    | Except.error e => Except.error e
    | Except.ok (StepOut.done r) => Except.ok r
    | Except.ok (StepOut.next m c rs) => agentLoop net llm flow pk fuel (iteration + 1) m c rs

/-- OpenAI function-schema translation of get_openai_tools, lines 292 to 308,
kept as the list of catalog entries named (the shape sent to the provider is
not inspected by anything the claims concern). -/
def get_openai_tools (tool_names : List String) : List ToolDef :=
  tool_names.filterMap lookupTD

/-- Conversation driver process_agent_conversation, lines 310 to 410. A truthy
private key is appended to the instruction text before the history is seeded. -/
def process_agent_conversation (net : Net) (llm : Llm)
    (system_prompt : String) (user_message : String)
    (available_tools : List String) (flow : List (String × String))
    (private_key : Option String) (max_iterations : Nat) : Except String AgentResult :=
  let system_prompt :=
    if strTruthy private_key then
      system_prompt ++ "\n\nCONTEXT: User\x27s private key is available: " ++ private_key.getD ""
    else system_prompt
  let _ := get_openai_tools available_tools
  agentLoop net llm flow private_key max_iterations 0
    [Message.system system_prompt, Message.user user_message] [] []

/-- Inbound request of the chat operation (Pydantic model AgentRequest). -/
structure AgentRequest where
  tools : List ToolConnection
  user_message : String
  private_key : Option String
deriving DecidableEq

/-- Response model of the chat operation (Pydantic model AgentResponse):
agent_response is a mandatory string. -/
structure AgentResponse where
  agent_response : String
  tool_calls : List ToolCallRec
  results : List ToolResult
deriving DecidableEq

/-- HTTP error surfaced to the caller (FastAPI HTTPException). -/
structure HTTPErrorOut where
  status_code : Nat
  detail : String
deriving DecidableEq

/-- Validation loop of lines 434 to 436: the first tool of the available list
that is absent from the catalog. -/
def firstUnknownTool : List String → Option String
  | [] => none
  | t :: rest => if (lookupTD t).isSome then firstUnknownTool rest else some t

/-- Body of the try block of chat_with_agent, lines 420 to 454. The
HTTPException(400) raised by validation is itself an Exception, so it is
represented as an error whose text is str(e) of that exception, namely the
status code, a colon and the detail. -/
def chatBody (net : Net) (llm : Llm) (request : AgentRequest) : Except String AgentResponse :=
  let available_tools := unique_tools request.tools
  let flow := tool_flow request.tools
  match firstUnknownTool available_tools with
  | some t => Except.error ("400: Unknown tool: " ++ t)
  | none =>
    let system_prompt := build_system_prompt request.tools
    match process_agent_conversation net llm system_prompt request.user_message
        available_tools flow request.private_key 10 with
    | Except.error e => Except.error e
    | Except.ok r =>
      match r.agent_response with
      | some s => Except.ok ⟨s, r.tool_calls, r.results⟩
      | none => Except.error "1 validation error for AgentResponse: agent_response must be a string"

/-- Endpoint chat_with_agent, lines 413 to 457: every exception escaping the
try block, the validation HTTPException(400) included, is caught by the
blanket handler and re-raised as HTTPException(500, str(e)). -/
def chat_with_agent (net : Net) (llm : Llm) (request : AgentRequest) :
    Except HTTPErrorOut AgentResponse :=
  match chatBody net llm request with
  | Except.ok resp => Except.ok resp
  | Except.error e => Except.error ⟨500, e⟩

/-- The resolved parameters of one requested call: the decoded arguments after
private-key injection (meaningful whenever the injection step succeeds). -/
def resolvedArgsT (pk : Option String) (tc : ToolCallReq) : Params :=
  match resolveArgs pk tc.name (tc.args.getD []) with
  | Except.ok a => a
  | Except.error _ => tc.args.getD []

/-- The call record the loop appends for one requested call. -/
def callRecOf (pk : Option String) (tc : ToolCallReq) : ToolCallRec :=
  ⟨tc.name, resolvedArgsT pk tc⟩

/-- The result record the loop appends for one requested call (meaningful
whenever the invocation does not raise). -/
def resultOf (net : Net) (pk : Option String) (tc : ToolCallReq) : ToolResult :=
  match execute_tool net tc.name (resolvedArgsT pk tc) with
  | Except.ok r => r
  | Except.error _ => ⟨false, tc.name, none, none⟩

/-- The tool message the loop appends for one requested call. -/
def toolMsgOf (net : Net) (pk : Option String) (tc : ToolCallReq) : Message :=
  Message.tool tc.id (renderToolResult (resultOf net pk tc))

/-- Claim-side reading of the successor map, following the claim text: each
source maps to the successor of the last edge in list order naming that
source among the edges declaring a successor. -/
def lastDeclaredSuccessor (conns : List ToolConnection) (t : String) : Option String :=
  conns.foldl (fun acc c =>
    match c.next_tool with
    | some nt => if c.tool = t then some nt else acc
    | none => acc) none

/-- Code-side reading of the successor map: as above, but an edge whose
declared successor is the empty string is skipped (Python truthiness). -/
def lastTruthySuccessor (conns : List ToolConnection) (t : String) : Option String :=
  conns.foldl (fun acc c =>
    match c.next_tool with
    | some nt => if c.tool = t ∧ ¬ nt = "" then some nt else acc
    | none => acc) none

/-- Claim-side helper for the invoker claim: remove exactly one field from a
parameter mapping, keeping every other field. -/
def eraseKey (l : Params) (k : String) : Params :=
  l.filter (fun kv => !(kv.1 == k))

/-- Witness for claim C1 at a concrete input: an oracle that calls
fetch_price on every turn, a cap of 2 iterations. -/
def w1net : Net := fun _ _ _ => HttpOutcome.ok "\x7b\x7d"

/-- Constant provider oracle requesting one fetch_price call per turn. -/
def w1llm : Llm := fun _ => ⟨none, [⟨"1", "fetch_price", some [("query", "mnt")]⟩]⟩

/-- Witness input for claim C2: a run that ends on the first turn. -/
def w2net : Net := fun _ _ _ => HttpOutcome.err "e"

/-- Provider oracle answering directly with no tool calls. -/
def w2llm : Llm := fun _ => ⟨some "hi", []⟩

/-- The result of that run. -/
def w2res : AgentResult := ⟨some "hi", [], [], [Message.system "s", Message.user "u"]⟩

/-- Concrete inputs for the C4 witness. -/
def w4net : Net := fun _ _ _ => HttpOutcome.ok "1"

/-- One-call reply used by the C4 witness. -/
def w4reply : ModelReply := ⟨none, [⟨"1", "fetch_price", some [("query", "mnt")]⟩]⟩

/-- Successor map declaring fetch_price to get_balance. -/
def w4flow : List (String × String) := [("fetch_price", "get_balance")]

/-- Constant oracle used by the C4 witness. -/
def w4llm : Llm := fun _ => w4reply

/-- Failing network used by the C10 witness: the source tool of the declared
edge fails, and the directive is appended regardless. -/
def w10net : Net := fun _ _ _ => HttpOutcome.err "timeout"

/-- One-call reply used by the C10 witness. -/
def w10reply : ModelReply := ⟨none, [⟨"2", "fetch_price", some [("query", "mnt")]⟩]⟩

/-- Successor map used by the C10 witness. -/
def w10flow : List (String × String) := [("fetch_price", "get_balance")]

/-- Failing network for the C6 witness. -/
def w6net : Net := fun _ _ _ => HttpOutcome.err "timeout"

/-- Oracle calling get_balance on the first turn and answering on the second. -/
def w6llm : Llm := fun i =>
  if i = 0 then ⟨none, [⟨"3", "get_balance", some [("address", "0xabc")]⟩]⟩
  else ⟨some "done", []⟩

/-- Oracle whose every reply carries tool-call arguments that are not valid
JSON (json.loads raises on them). -/
def c5llm : Llm := fun _ => ⟨some "x", [⟨"1", "fetch_price", none⟩]⟩

/-- Network oracle (never reached in the C5 run). -/
def c5net : Net := fun _ _ _ => HttpOutcome.ok "\x7b\x7d"

/-- A request declaring a tool identifier absent from the catalog. -/
def c3request : AgentRequest := ⟨[⟨"foo", none⟩], "hi", none⟩

/-- Network used by the C8 witness. -/
def w8net : Net := fun _ _ _ => HttpOutcome.ok "5"

/-- The get_balance catalog entry, the one tool with a path placeholder. -/
def w8td : ToolDef :=
  ⟨"get_balance", "Get MNT balance of a wallet address. Requires only the wallet address.",
   ["address"], ["address"],
   "https://mantlebackend-739298578243.us-central1.run.app/balance/\x7baddress\x7d", "GET"⟩

/-- Network used by the C9 runs. -/
def c9net : Net := fun _ _ _ => HttpOutcome.ok "\x7b\x7d"

/-- Oracle that calls transfer WITHOUT supplying privateKey on the first turn
and answers on the second. -/
def c9llm : Llm := fun i =>
  if i = 0 then
    ⟨none, [⟨"9", "transfer",
      some [("toAddress", "0xB"), ("amount", "5"), ("tokenAddress", "0xT")]⟩]⟩
  else ⟨some "done", []⟩

/-- The result of the concrete C9 run, used by the witness. -/
def c9res : AgentResult :=
  (process_agent_conversation c9net c9llm "s" "u" ["transfer"] []
    (some "SECRETKEY") 10).toOption.getD ⟨none, [], [], []⟩

/-! ## Properties -/

theorem plookup_dictSet {α : Type} (k : String) (v : α) (key : String) :
    ∀ m : List (String × α),
      plookup (dictSet m k v) key = if k = key then some v else plookup m key := by
  intro m
  induction m with
  | nil => simp [dictSet, plookup]
  | cons p rest ih =>
    obtain ⟨a, b⟩ := p
    by_cases hak : a = k
    · subst hak
      by_cases hkey : a = key
      · subst hkey
        simp [dictSet, plookup]
      · simp [dictSet, plookup, hkey]
    · by_cases hkey : a = key
      · subst hkey
        have hk : ¬ k = a := fun h => hak h.symm
        simp [dictSet, plookup, hak, hk]
      · simp [dictSet, plookup, hak, hkey, ih]

theorem buildToolsLoop_flow_inv (t : String) :
    ∀ (conns : List ToolConnection) (ut : List String) (flowAcc : List (String × String)),
      plookup (buildToolsLoop conns ut flowAcc).2 t =
        conns.foldl (fun acc c =>
          match c.next_tool with
          | some nt => if c.tool = t ∧ ¬ nt = "" then some nt else acc
          | none => acc) (plookup flowAcc t) := by
  intro conns
  induction conns with
  | nil => intro ut flowAcc; simp [buildToolsLoop]
  | cons c rest ih =>
    intro ut flowAcc
    rcases hnt : c.next_tool with _ | nt
    · simp only [buildToolsLoop, hnt, List.foldl_cons]
      exact ih _ _
    · by_cases hempty : nt = ""
      · subst hempty
        have hstep : buildToolsLoop (c :: rest) ut flowAcc =
            buildToolsLoop rest (addUnique ut c.tool) flowAcc := by
          simp [buildToolsLoop, hnt]
        rw [hstep, ih, List.foldl_cons]
        congr 1
        rw [hnt]
        simp
      · have hstep : buildToolsLoop (c :: rest) ut flowAcc =
            buildToolsLoop rest (addUnique (addUnique ut c.tool) nt) (dictSet flowAcc c.tool nt) := by
          simp [buildToolsLoop, hnt, hempty]
        rw [hstep, ih, plookup_dictSet, List.foldl_cons]
        congr 1
        rw [hnt]
        simp [hempty]

theorem tool_flow_spec (conns : List ToolConnection) (t : String) :
    plookup (tool_flow conns) t = lastTruthySuccessor conns t := by
  unfold tool_flow lastTruthySuccessor
  have h := buildToolsLoop_flow_inv t conns [] []
  simpa [plookup] using h

theorem mem_addUnique (l : List String) (x t : String) :
    t ∈ addUnique l x ↔ t ∈ l ∨ t = x := by
  unfold addUnique
  by_cases h : x ∈ l
  · simp only [if_pos h]
    constructor
    · exact Or.inl
    · rintro (h1 | rfl)
      · exact h1
      · exact h
  · simp [if_neg h]

theorem buildToolsLoop_mem_inv (t : String) :
    ∀ (conns : List ToolConnection) (ut : List String) (flowAcc : List (String × String)),
      t ∈ (buildToolsLoop conns ut flowAcc).1 ↔
        t ∈ ut ∨ ∃ c ∈ conns, c.tool = t ∨ (c.next_tool = some t ∧ ¬ t = "") := by
  intro conns
  induction conns with
  | nil => intro ut flowAcc; simp [buildToolsLoop]
  | cons c rest ih =>
    intro ut flowAcc
    rw [List.exists_mem_cons_iff]
    rcases hnt : c.next_tool with _ | nt
    · have hiff : ((none : Option String) = some t ∧ ¬ t = "") ↔ False := by simp
      simp only [buildToolsLoop, hnt]
      rw [ih, mem_addUnique, hiff]
      constructor
      · rintro ((h1 | h1) | h1)
        · exact Or.inl h1
        · exact Or.inr (Or.inl (Or.inl h1.symm))
        · exact Or.inr (Or.inr h1)
      · rintro (h1 | (h1 | h1) | h1)
        · exact Or.inl (Or.inl h1)
        · exact Or.inl (Or.inr h1.symm)
        · cases h1
        · exact Or.inr h1
    · by_cases hempty : nt = ""
      · subst hempty
        have hiff : ((some "" : Option String) = some t ∧ ¬ t = "") ↔ False := by
          constructor
          · rintro ⟨h1, h2⟩
            exact h2 (Option.some_injective _ h1).symm
          · exact False.elim
        have hstep : buildToolsLoop (c :: rest) ut flowAcc =
            buildToolsLoop rest (addUnique ut c.tool) flowAcc := by
          simp [buildToolsLoop, hnt]
        rw [hstep, ih, mem_addUnique, hiff]
        constructor
        · rintro ((h1 | h1) | h1)
          · exact Or.inl h1
          · exact Or.inr (Or.inl (Or.inl h1.symm))
          · exact Or.inr (Or.inr h1)
        · rintro (h1 | (h1 | h1) | h1)
          · exact Or.inl (Or.inl h1)
          · exact Or.inl (Or.inr h1.symm)
          · cases h1
          · exact Or.inr h1
      · have hiff : ((some nt : Option String) = some t ∧ ¬ t = "") ↔ t = nt := by
          constructor
          · rintro ⟨h1, _⟩
            exact (Option.some_injective _ h1).symm
          · rintro rfl
            exact ⟨rfl, hempty⟩
        have hstep : buildToolsLoop (c :: rest) ut flowAcc =
            buildToolsLoop rest (addUnique (addUnique ut c.tool) nt) (dictSet flowAcc c.tool nt) := by
          simp [buildToolsLoop, hnt, hempty]
        rw [hstep, ih, mem_addUnique, mem_addUnique, hiff]
        constructor
        · rintro (((h1 | h1) | h1) | h1)
          · exact Or.inl h1
          · exact Or.inr (Or.inl (Or.inl h1.symm))
          · exact Or.inr (Or.inl (Or.inr h1))
          · exact Or.inr (Or.inr h1)
        · rintro (h1 | (h1 | h1) | h1)
          · exact Or.inl (Or.inl (Or.inl h1))
          · exact Or.inl (Or.inl (Or.inr h1.symm))
          · exact Or.inl (Or.inr h1)
          · exact Or.inr h1

theorem nodup_addUnique (l : List String) (x : String) (h : l.Nodup) :
    (addUnique l x).Nodup := by
  unfold addUnique
  by_cases hx : x ∈ l
  · simpa [hx] using h
  · simp only [if_neg hx]
    rw [List.nodup_append]
    refine ⟨h, by simp, ?_⟩
    intro a ha hb
    simp only [List.mem_singleton] at hb
    subst hb
    exact hx ha

theorem buildToolsLoop_nodup :
    ∀ (conns : List ToolConnection) (ut : List String) (flowAcc : List (String × String)),
      ut.Nodup → (buildToolsLoop conns ut flowAcc).1.Nodup := by
  intro conns
  induction conns with
  | nil => intro ut flowAcc h; simpa [buildToolsLoop] using h
  | cons c rest ih =>
    intro ut flowAcc h
    rcases hnt : c.next_tool with _ | nt
    · simp only [buildToolsLoop, hnt]
      exact ih _ _ (nodup_addUnique _ _ h)
    · by_cases hempty : nt = ""
      · have hstep : buildToolsLoop (c :: rest) ut flowAcc =
            buildToolsLoop rest (addUnique ut c.tool) flowAcc := by
          simp [buildToolsLoop, hnt, hempty]
        rw [hstep]
        exact ih _ _ (nodup_addUnique _ _ h)
      · have hstep : buildToolsLoop (c :: rest) ut flowAcc =
            buildToolsLoop rest (addUnique (addUnique ut c.tool) nt) (dictSet flowAcc c.tool nt) := by
          simp [buildToolsLoop, hnt, hempty]
        rw [hstep]
        exact ih _ _ (nodup_addUnique _ _ (nodup_addUnique _ _ h))

theorem plookup_mem {α : Type} (key : String) (v : α) :
    ∀ l : List (String × α), plookup l key = some v → (key, v) ∈ l := by
  intro l
  induction l with
  | nil => intro h; cases h
  | cons p rest ih =>
    obtain ⟨k, w⟩ := p
    intro h
    by_cases hk : k = key
    · subst hk
      simp only [plookup, if_pos rfl] at h
      obtain rfl := Option.some_injective _ h
      exact List.mem_cons_self _ _
    · simp only [plookup, if_neg hk] at h
      exact List.mem_cons_of_mem _ (ih h)

/-- Every catalog entry uses the GET or the POST verb. -/
theorem lookupTD_method (t : String) (td : ToolDef) (h : lookupTD t = some td) :
    td.method = "GET" ∨ td.method = "POST" := by
  have hmem : (t, td) ∈ TOOL_DEFINITIONS := plookup_mem t td TOOL_DEFINITIONS h
  have hall : ∀ p ∈ TOOL_DEFINITIONS, p.2.method = "GET" ∨ p.2.method = "POST" := by decide
  exact hall _ hmem

/-- A successful invocation records the invoked tool name. -/
theorem execute_tool_tool (net : Net) (n : String) (p : Params) (r : ToolResult)
    (h : execute_tool net n p = Except.ok r) : r.tool = n := by
  rcases hlk : lookupTD n with _ | td
  · simp [execute_tool, hlk] at h
  · rcases hre : resolve_endpoint td.endpoint td.method p with ⟨ep, ps⟩
    simp only [execute_tool, hlk, hre] at h
    by_cases hpost : td.method = "POST"
    · simp only [if_pos hpost] at h
      rcases hnn : net ep "POST" (some ps) with b | e <;> rw [hnn] at h <;>
        simp only [Except.ok.injEq] at h <;> rw [← h]
    · simp only [if_neg hpost] at h
      by_cases hget : td.method = "GET"
      · simp only [if_pos hget] at h
        rcases hnn : net ep "GET" none with b | e <;> rw [hnn] at h <;>
          simp only [Except.ok.injEq] at h <;> rw [← h]
      · simp only [if_neg hget] at h
        cases h

/-- Invoking a tool of the catalog never raises: the ValueError branches are
unreachable because the name is known and its verb is GET or POST. -/
theorem execute_tool_isOk (net : Net) (n : String) (p : Params)
    (h : (lookupTD n).isSome = true) : ∃ r, execute_tool net n p = Except.ok r := by
  rcases hlk : lookupTD n with _ | td
  · rw [hlk] at h; cases h
  · rcases hre : resolve_endpoint td.endpoint td.method p with ⟨ep, ps⟩
    rcases lookupTD_method n td hlk with hm | hm <;> rw [hm] at hre
    · rcases hnn : net ep "GET" none with b | e
      · exact ⟨⟨true, n, some b, none⟩, by
          simp [execute_tool, hlk, hre, hm, hnn]⟩
      · exact ⟨⟨false, n, none, some e⟩, by
          simp [execute_tool, hlk, hre, hm, hnn]⟩
    · rcases hnn : net ep "POST" (some ps) with b | e
      · exact ⟨⟨true, n, some b, none⟩, by
          simp [execute_tool, hlk, hre, hm, hnn]⟩
      · exact ⟨⟨false, n, none, some e⟩, by
          simp [execute_tool, hlk, hre, hm, hnn]⟩

/-- On a known tool the private-key injection never raises. -/
theorem resolveArgs_isOk (pk : Option String) (n : String) (a : Params)
    (h : (lookupTD n).isSome = true) : ∃ fa, resolveArgs pk n a = Except.ok fa := by
  rcases pk with _ | k
  · exact ⟨a, rfl⟩
  · rcases hlk : lookupTD n with _ | td
    · rw [hlk] at h; cases h
    · by_cases hk : k = ""
      · exact ⟨a, by simp [resolveArgs, hk]⟩
      · by_cases hp : "privateKey" ∈ td.properties
        · by_cases hh : hasKey a "privateKey" = true
          · exact ⟨a, by simp [resolveArgs, hk, hlk, hp, hh]⟩
          · exact ⟨a ++ [("privateKey", k)], by simp [resolveArgs, hk, hlk, hp, hh]⟩
        · exact ⟨a, by simp [resolveArgs, hk, hlk, hp]⟩

theorem processBatch_ok (net : Net) (pk : Option String) :
    ∀ (tcs : List ToolCallReq) (messages : List Message) (calls : List ToolCallRec)
      (results : List ToolResult) (m : List Message) (c : List ToolCallRec) (r : List ToolResult),
      processBatch net pk tcs messages calls results = Except.ok (m, c, r) →
      m = messages ++ tcs.map (toolMsgOf net pk)
      ∧ c = calls ++ tcs.map (callRecOf pk)
      ∧ r = results ++ tcs.map (resultOf net pk)
      ∧ ∀ tc ∈ tcs, tc.args.isSome = true
          ∧ resolveArgs pk tc.name (tc.args.getD []) = Except.ok (resolvedArgsT pk tc)
          ∧ execute_tool net tc.name (resolvedArgsT pk tc) = Except.ok (resultOf net pk tc) := by
  intro tcs
  induction tcs with
  | nil =>
    intro messages calls results m c r h
    simp only [processBatch, Except.ok.injEq, Prod.mk.injEq] at h
    obtain ⟨h1, h2, h3⟩ := h
    simp [← h1, ← h2, ← h3]
  | cons tc rest ih =>
    intro messages calls results m c r h
    rcases ha : tc.args with _ | a
    · simp [processBatch, ha] at h
    · rcases hra : resolveArgs pk tc.name a with e | fa
      · simp [processBatch, ha, hra] at h
      · rcases hex : execute_tool net tc.name fa with e | res
        · simp [processBatch, ha, hra, hex] at h
        · simp only [processBatch, ha, hra, hex] at h
          have hrA : resolvedArgsT pk tc = fa := by
            unfold resolvedArgsT
            rw [ha]
            simp [hra]
          have hres : resultOf net pk tc = res := by
            unfold resultOf
            rw [hrA, hex]
          obtain ⟨h1, h2, h3, h4⟩ := ih _ _ _ _ _ _ h
          refine ⟨?_, ?_, ?_, ?_⟩
          · rw [h1, List.map_cons]
            simp [toolMsgOf, hres]
          · rw [h2, List.map_cons]
            simp [callRecOf, hrA]
          · rw [h3, List.map_cons]
            simp [hres]
          · intro x hx
            rcases List.mem_cons.mp hx with rfl | hx'
            · refine ⟨by rw [ha]; rfl, ?_, ?_⟩
              · rw [ha]
                simpa [hrA] using hra
              · rw [hrA, hres]
                exact hex
            · exact h4 x hx'

theorem processBatch_wf (net : Net) (pk : Option String) :
    ∀ (tcs : List ToolCallReq) (messages : List Message) (calls : List ToolCallRec)
      (results : List ToolResult),
      (∀ tc ∈ tcs, tc.args.isSome = true ∧ (lookupTD tc.name).isSome = true) →
      processBatch net pk tcs messages calls results =
        Except.ok (messages ++ tcs.map (toolMsgOf net pk),
                   calls ++ tcs.map (callRecOf pk),
                   results ++ tcs.map (resultOf net pk)) := by
  intro tcs
  induction tcs with
  | nil => intro messages calls results _; simp [processBatch]
  | cons tc rest ih =>
    intro messages calls results hwf
    obtain ⟨hargs, hknown⟩ := hwf tc (List.mem_cons_self _ _)
    rcases ha : tc.args with _ | a
    · simp [ha] at hargs
    · obtain ⟨fa, hra⟩ := resolveArgs_isOk pk tc.name a hknown
      obtain ⟨res, hex⟩ := execute_tool_isOk net tc.name fa hknown
      have hrA : resolvedArgsT pk tc = fa := by
        unfold resolvedArgsT
        rw [ha]
        simp [hra]
      have hres : resultOf net pk tc = res := by
        unfold resultOf
        rw [hrA, hex]
      simp only [processBatch, ha, hra, hex]
      rw [ih _ _ _ (fun x hx => hwf x (List.mem_cons_of_mem _ hx))]
      simp [toolMsgOf, callRecOf, hrA, hres]

theorem agentStep_done (net : Net) (flow : List (String × String)) (pk : Option String)
    (reply : ModelReply) (messages : List Message) (calls : List ToolCallRec)
    (results : List ToolResult) (r : AgentResult)
    (h : agentStep net flow pk reply messages calls results = Except.ok (StepOut.done r)) :
    reply.tool_calls = [] ∧ r = ⟨reply.content, calls, results, messages⟩ := by
  by_cases he : reply.tool_calls = []
  · simp only [agentStep, if_pos he, Except.ok.injEq, StepOut.done.injEq] at h
    exact ⟨he, h.symm⟩
  · exfalso
    rcases hpb : processBatch net pk reply.tool_calls
        (messages ++ [Message.assistant reply.content reply.tool_calls]) calls results
      with e | ⟨m1, c1, r1⟩
    · simp [agentStep, if_neg he, hpb] at h
    · rcases hgl : c1.getLast? with _ | lc
      · simp [agentStep, if_neg he, hpb, hgl] at h
      · rcases hfl : plookup flow lc.tool with _ | nt <;>
          simp [agentStep, if_neg he, hpb, hgl, hfl] at h

theorem agentStep_next_core (net : Net) (flow : List (String × String)) (pk : Option String)
    (reply : ModelReply) (messages : List Message) (calls : List ToolCallRec)
    (results : List ToolResult) (m : List Message) (c : List ToolCallRec) (r : List ToolResult)
    (h : agentStep net flow pk reply messages calls results = Except.ok (StepOut.next m c r)) :
    reply.tool_calls ≠ []
    ∧ c = calls ++ reply.tool_calls.map (callRecOf pk)
    ∧ r = results ++ reply.tool_calls.map (resultOf net pk)
    ∧ (∀ tc ∈ reply.tool_calls, tc.args.isSome = true
        ∧ resolveArgs pk tc.name (tc.args.getD []) = Except.ok (resolvedArgsT pk tc)
        ∧ execute_tool net tc.name (resolvedArgsT pk tc) = Except.ok (resultOf net pk tc))
    ∧ ∃ tcLast, reply.tool_calls.getLast? = some tcLast
        ∧ ((∃ nt, plookup flow tcLast.name = some nt
              ∧ m = messages ++ [Message.assistant reply.content reply.tool_calls]
                  ++ reply.tool_calls.map (toolMsgOf net pk)
                  ++ [Message.system (continuationDirective nt)])
           ∨ (plookup flow tcLast.name = none
              ∧ m = messages ++ [Message.assistant reply.content reply.tool_calls]
                  ++ reply.tool_calls.map (toolMsgOf net pk))) := by
  by_cases he : reply.tool_calls = []
  · simp only [agentStep, if_pos he] at h
    cases h
  · rcases hpb : processBatch net pk reply.tool_calls
        (messages ++ [Message.assistant reply.content reply.tool_calls]) calls results
      with e | ⟨m1, c1, r1⟩
    · simp [agentStep, if_neg he, hpb] at h
    · obtain ⟨hm1, hc1, hr1, hall⟩ := processBatch_ok net pk _ _ _ _ _ _ _ hpb
      obtain ⟨tcLast, hlast⟩ :=
        Option.isSome_iff_exists.mp (List.getLast?_isSome.mpr he)
      have hgl : c1.getLast? = some (callRecOf pk tcLast) := by
        rw [hc1, List.getLast?_append, List.getLast?_map, hlast]
        rfl
      have htool : (callRecOf pk tcLast).tool = tcLast.name := rfl
      rcases hfl : plookup flow tcLast.name with _ | nt
      · have hstep_eq : agentStep net flow pk reply messages calls results =
            Except.ok (StepOut.next m1 c1 r1) := by
          simp [agentStep, if_neg he, hpb, hgl, htool, hfl]
        have h2 := Except.ok.inj (hstep_eq.symm.trans h)
        injection h2 with hmm hcc hrr
        refine ⟨he, by rw [← hcc, hc1], by rw [← hrr, hr1], hall, tcLast, hlast,
          Or.inr ⟨hfl, ?_⟩⟩
        rw [← hmm, hm1, List.append_assoc]
      · have hstep_eq : agentStep net flow pk reply messages calls results =
            Except.ok (StepOut.next (m1 ++ [Message.system (continuationDirective nt)]) c1 r1) := by
          simp [agentStep, if_neg he, hpb, hgl, htool, hfl]
        have h2 := Except.ok.inj (hstep_eq.symm.trans h)
        injection h2 with hmm hcc hrr
        refine ⟨he, by rw [← hcc, hc1], by rw [← hrr, hr1], hall, tcLast, hlast,
          Or.inl ⟨nt, hfl, ?_⟩⟩
        rw [← hmm, hm1]

/-- The accumulated logs are only ever appended to. -/
theorem agentLoop_prefix (net : Net) (llm : Llm) (flow : List (String × String))
    (pk : Option String) :
    ∀ (fuel iteration : Nat) (messages : List Message) (calls : List ToolCallRec)
      (results : List ToolResult) (res : AgentResult),
      agentLoop net llm flow pk fuel iteration messages calls results = Except.ok res →
      ∃ cs rs, res.tool_calls = calls ++ cs ∧ res.results = results ++ rs := by
  intro fuel
  induction fuel with
  | zero =>
    intro it messages calls results res h
    simp only [agentLoop, Except.ok.injEq] at h
    refine ⟨[], [], ?_, ?_⟩ <;> rw [← h] <;> simp
  | succ fuel ih =>
    intro it messages calls results res h
    rcases hstep : agentStep net flow pk (llm it) messages calls results with e | out
    · simp [agentLoop, hstep] at h
    · rcases out with r | ⟨m, c, rs⟩
      · simp only [agentLoop, hstep, Except.ok.injEq] at h
        obtain ⟨_, hr⟩ := agentStep_done _ _ _ _ _ _ _ _ hstep
        refine ⟨[], [], ?_, ?_⟩ <;> rw [← h, hr] <;> simp
      · simp only [agentLoop, hstep] at h
        obtain ⟨_, hc, hrs, _, _⟩ := agentStep_next_core _ _ _ _ _ _ _ _ _ _ hstep
        obtain ⟨cs, rs2, h1, h2⟩ := ih _ _ _ _ _ h
        refine ⟨(llm it).tool_calls.map (callRecOf pk) ++ cs,
                (llm it).tool_calls.map (resultOf net pk) ++ rs2, ?_, ?_⟩
        · rw [h1, hc, List.append_assoc]
        · rw [h2, hrs, List.append_assoc]

/-- Pointwise pairing of one batch of call records with its result records. -/
theorem forall2_batch (net : Net) (pk : Option String) :
    ∀ tcs : List ToolCallReq,
      (∀ tc ∈ tcs, execute_tool net tc.name (resolvedArgsT pk tc) = Except.ok (resultOf net pk tc)) →
      List.Forall₂
        (fun c r => r.tool = c.tool ∧ execute_tool net c.tool c.parameters = Except.ok r)
        (tcs.map (callRecOf pk)) (tcs.map (resultOf net pk)) := by
  intro tcs
  induction tcs with
  | nil => intro _; simp
  | cons tc rest ih =>
    intro hall
    have hx := hall tc (List.mem_cons_self _ _)
    simp only [List.map_cons]
    exact List.Forall₂.cons
      ⟨execute_tool_tool net tc.name (resolvedArgsT pk tc) _ hx, hx⟩
      (ih (fun x hx' => hall x (List.mem_cons_of_mem _ hx')))

/-- Main invariant of the loop on the success path: the returned call log and
result log stay pairwise correlated, and the call log is the concatenation of
the per-turn batches of the consumed provider replies, in order. -/
theorem agentLoop_ok_spec (net : Net) (llm : Llm) (flow : List (String × String))
    (pk : Option String) :
    ∀ (fuel it : Nat) (messages : List Message) (calls : List ToolCallRec)
      (results : List ToolResult) (res : AgentResult),
      agentLoop net llm flow pk fuel it messages calls results = Except.ok res →
      List.Forall₂
        (fun c r => r.tool = c.tool ∧ execute_tool net c.tool c.parameters = Except.ok r)
        calls results →
      List.Forall₂
        (fun c r => r.tool = c.tool ∧ execute_tool net c.tool c.parameters = Except.ok r)
        res.tool_calls res.results
      ∧ ∃ k, k ≤ fuel ∧ res.tool_calls =
          calls ++ (List.range' it k).flatMap (fun i => (llm i).tool_calls.map (callRecOf pk)) := by
  intro fuel
  induction fuel with
  | zero =>
    intro it messages calls results res h hinv
    simp only [agentLoop, Except.ok.injEq] at h
    rw [← h]
    exact ⟨hinv, 0, le_refl 0, by simp⟩
  | succ fuel ih =>
    intro it messages calls results res h hinv
    rcases hstep : agentStep net flow pk (llm it) messages calls results with e | out
    · simp [agentLoop, hstep] at h
    · rcases out with r | ⟨m, c, rs⟩
      · simp only [agentLoop, hstep, Except.ok.injEq] at h
        obtain ⟨_, hr⟩ := agentStep_done _ _ _ _ _ _ _ _ hstep
        rw [← h, hr]
        exact ⟨hinv, 0, Nat.zero_le _, by simp⟩
      · simp only [agentLoop, hstep] at h
        obtain ⟨_, hc, hrs, hall, _⟩ := agentStep_next_core _ _ _ _ _ _ _ _ _ _ hstep
        have hinv2 : List.Forall₂
            (fun c r => r.tool = c.tool ∧ execute_tool net c.tool c.parameters = Except.ok r)
            c rs := by
          rw [hc, hrs]
          exact List.rel_append hinv
            (forall2_batch net pk (llm it).tool_calls (fun tc htc => (hall tc htc).2.2))
        obtain ⟨hf, k, hk, hcalls⟩ := ih _ _ _ _ _ h hinv2
        refine ⟨hf, k + 1, by omega, ?_⟩
        rw [hcalls, hc, List.range'_succ, List.flatMap_cons, List.append_assoc]

/-- When every reply of the oracle requests well-formed tool calls, the loop
runs its full fuel, each iteration consuming one reply and appending that
whole batch, and ends with the maximum-iterations notice. -/
theorem agentLoop_cap (net : Net) (llm : Llm) (flow : List (String × String))
    (pk : Option String)
    (hwf : ∀ i : Nat, (llm i).tool_calls ≠ [] ∧
      ∀ tc ∈ (llm i).tool_calls, tc.args.isSome = true ∧ (lookupTD tc.name).isSome = true) :
    ∀ (fuel it : Nat) (messages : List Message) (calls : List ToolCallRec)
      (results : List ToolResult),
      ∃ hist, agentLoop net llm flow pk fuel it messages calls results =
        Except.ok ⟨some maxIterationsText,
          calls ++ (List.range' it fuel).flatMap (fun i => (llm i).tool_calls.map (callRecOf pk)),
          results ++ (List.range' it fuel).flatMap (fun i => (llm i).tool_calls.map (resultOf net pk)),
          hist⟩ := by
  intro fuel
  induction fuel with
  | zero =>
    intro it messages calls results
    exact ⟨messages, by simp [agentLoop]⟩
  | succ fuel ih =>
    intro it messages calls results
    obtain ⟨hne, hcalls_wf⟩ := hwf it
    have hpb := processBatch_wf net pk (llm it).tool_calls
      (messages ++ [Message.assistant (llm it).content (llm it).tool_calls]) calls results hcalls_wf
    obtain ⟨tcLast, hlast⟩ := Option.isSome_iff_exists.mp (List.getLast?_isSome.mpr hne)
    have hgl : (calls ++ (llm it).tool_calls.map (callRecOf pk)).getLast?
        = some (callRecOf pk tcLast) := by
      rw [List.getLast?_append, List.getLast?_map, hlast]
      rfl
    have htool : (callRecOf pk tcLast).tool = tcLast.name := rfl
    rcases hfl : plookup flow tcLast.name with _ | nt
    · have hstep : agentStep net flow pk (llm it) messages calls results =
          Except.ok (StepOut.next
            (messages ++ [Message.assistant (llm it).content (llm it).tool_calls]
              ++ (llm it).tool_calls.map (toolMsgOf net pk))
            (calls ++ (llm it).tool_calls.map (callRecOf pk))
            (results ++ (llm it).tool_calls.map (resultOf net pk))) := by
        simp [agentStep, hne, hpb, hgl, htool, hfl]
      obtain ⟨hist, hrec⟩ := ih (it + 1) _ _ _
      refine ⟨hist, ?_⟩
      have hloop : agentLoop net llm flow pk (fuel + 1) it messages calls results =
          agentLoop net llm flow pk fuel (it + 1)
            (messages ++ [Message.assistant (llm it).content (llm it).tool_calls]
              ++ (llm it).tool_calls.map (toolMsgOf net pk))
            (calls ++ (llm it).tool_calls.map (callRecOf pk))
            (results ++ (llm it).tool_calls.map (resultOf net pk)) := by
        simp [agentLoop, hstep]
      rw [hloop, hrec]
      simp [List.range'_succ, List.append_assoc]
    · have hstep : agentStep net flow pk (llm it) messages calls results =
          Except.ok (StepOut.next
            (messages ++ [Message.assistant (llm it).content (llm it).tool_calls]
              ++ (llm it).tool_calls.map (toolMsgOf net pk)
              ++ [Message.system (continuationDirective nt)])
            (calls ++ (llm it).tool_calls.map (callRecOf pk))
            (results ++ (llm it).tool_calls.map (resultOf net pk))) := by
        simp [agentStep, hne, hpb, hgl, htool, hfl, List.append_assoc]
      obtain ⟨hist, hrec⟩ := ih (it + 1) _ _ _
      refine ⟨hist, ?_⟩
      have hloop : agentLoop net llm flow pk (fuel + 1) it messages calls results =
          agentLoop net llm flow pk fuel (it + 1)
            (messages ++ [Message.assistant (llm it).content (llm it).tool_calls]
              ++ (llm it).tool_calls.map (toolMsgOf net pk)
              ++ [Message.system (continuationDirective nt)])
            (calls ++ (llm it).tool_calls.map (callRecOf pk))
            (results ++ (llm it).tool_calls.map (resultOf net pk)) := by
        simp [agentLoop, hstep]
      rw [hloop, hrec]
      simp [List.range'_succ, List.append_assoc]

/-- The loop only ever consults the oracle on the iterations its fuel allows:
two oracles agreeing on that window produce identical outcomes. -/
theorem agentLoop_ext (net : Net) (flow : List (String × String)) (pk : Option String) :
    ∀ (fuel : Nat) (llm llm2 : Llm) (it : Nat) (messages : List Message)
      (calls : List ToolCallRec) (results : List ToolResult),
      (∀ i, it ≤ i → i < it + fuel → llm i = llm2 i) →
      agentLoop net llm flow pk fuel it messages calls results =
        agentLoop net llm2 flow pk fuel it messages calls results := by
  intro fuel
  induction fuel with
  | zero => intros; rfl
  | succ fuel ih =>
    intro llm llm2 it messages calls results hagree
    have h0 : llm it = llm2 it := hagree it le_rfl (by omega)
    rcases hstep : agentStep net flow pk (llm2 it) messages calls results with e | out
    · simp [agentLoop, h0, hstep]
    · rcases out with r | ⟨m, c, rs⟩
      · simp [agentLoop, h0, hstep]
      · have h1 : agentLoop net llm flow pk (fuel + 1) it messages calls results =
            agentLoop net llm flow pk fuel (it + 1) m c rs := by
          simp [agentLoop, h0, hstep]
        have h2 : agentLoop net llm2 flow pk (fuel + 1) it messages calls results =
            agentLoop net llm2 flow pk fuel (it + 1) m c rs := by
          simp [agentLoop, hstep]
        rw [h1, h2]
        exact ih llm llm2 (it + 1) m c rs (fun i hi1 hi2 => hagree i (by omega) (by omega))

/-- The driver is the loop started on the seeded history. -/
theorem process_eq_loop (net : Net) (llm : Llm) (sys um : String) (tools : List String)
    (flow : List (String × String)) (pk : Option String) (cap : Nat) :
    process_agent_conversation net llm sys um tools flow pk cap =
      agentLoop net llm flow pk cap 0
        [Message.system (if strTruthy pk = true then
            sys ++ "\n\nCONTEXT: User\x27s private key is available: " ++ pk.getD ""
          else sys),
         Message.user um] [] [] := rfl

/-- Claim C1: for every input (any edge list, user message, secret, and any
sequence of model replies, including one that requests tool calls on every
turn), process_agent_conversation terminates after at most max_iterations
loop iterations, and the value it returns at termination contains the full
ordered tool-call log and tool-result log accumulated up to that point.
Formalised as: (1) the outcome depends only on the first max_iterations
provider replies, so no run ever consumes more than max_iterations of them;
(2) on an oracle that requests well-formed tool calls on every turn, the
driver returns (rather than loops) after exactly max_iterations iterations,
with the termination notice and the logs of every consumed batch, in order. -/
theorem claim_C1 (net : Net) (llm llm2 : Llm) (system_prompt user_message : String)
    (available_tools : List String) (flow : List (String × String))
    (private_key : Option String) (max_iterations : Nat) :
    ((∀ i, i < max_iterations → llm i = llm2 i) →
      process_agent_conversation net llm system_prompt user_message available_tools flow
          private_key max_iterations =
        process_agent_conversation net llm2 system_prompt user_message available_tools flow
          private_key max_iterations)
    ∧ ((∀ i : Nat, (llm i).tool_calls ≠ [] ∧
          ∀ tc ∈ (llm i).tool_calls, tc.args.isSome = true ∧ (lookupTD tc.name).isSome = true) →
        ∃ hist, process_agent_conversation net llm system_prompt user_message available_tools
            flow private_key max_iterations =
          Except.ok ⟨some maxIterationsText,
            (List.range max_iterations).flatMap
              (fun i => (llm i).tool_calls.map (callRecOf private_key)),
            (List.range max_iterations).flatMap
              (fun i => (llm i).tool_calls.map (resultOf net private_key)),
            hist⟩) := by
  constructor
  · intro hag
    rw [process_eq_loop, process_eq_loop]
    exact agentLoop_ext net flow private_key max_iterations llm llm2 0 _ _ _
      (fun i h1 h2 => hag i (by omega))
  · intro hwf
    obtain ⟨hist, hrun⟩ := agentLoop_cap net llm flow private_key hwf max_iterations 0
      [Message.system (if strTruthy private_key = true then
          system_prompt ++ "\n\nCONTEXT: User\x27s private key is available: "
            ++ private_key.getD ""
        else system_prompt),
       Message.user user_message] [] []
    refine ⟨hist, ?_⟩
    rw [process_eq_loop, hrun, List.range_eq_range']
    simp

theorem w1llm_wf : ∀ i : Nat, (w1llm i).tool_calls ≠ [] ∧
    ∀ tc ∈ (w1llm i).tool_calls, tc.args.isSome = true ∧ (lookupTD tc.name).isSome = true := by
  intro i
  constructor
  · simp [w1llm]
  · intro tc htc
    simp only [w1llm, List.mem_singleton] at htc
    subst htc
    exact ⟨rfl, by decide⟩

theorem claim_C1_witness :
    (process_agent_conversation w1net w1llm "s" "u" ["fetch_price"] [] none 2 =
      process_agent_conversation w1net w1llm "s" "u" ["fetch_price"] [] none 2)
    ∧ (∃ hist, process_agent_conversation w1net w1llm "s" "u" ["fetch_price"] [] none 2 =
        Except.ok ⟨some maxIterationsText,
          (List.range 2).flatMap (fun i => (w1llm i).tool_calls.map (callRecOf none)),
          (List.range 2).flatMap (fun i => (w1llm i).tool_calls.map (resultOf w1net none)),
          hist⟩) :=
  ⟨(claim_C1 w1net w1llm w1llm "s" "u" ["fetch_price"] [] none 2).1 (fun _ _ => rfl),
   (claim_C1 w1net w1llm w1llm "s" "u" ["fetch_price"] [] none 2).2 w1llm_wf⟩

/-- Claim C2: in every result returned by process_agent_conversation (whether
by final answer or by reaching the iteration cap), the tool-call list and the
tool-result list have the same length, the record at each position of the
result list is the outcome of invoking the tool named at the same position of
the call list (stated positionally via Forall2), and the shared order is the
order the model emitted the calls within each turn, concatenated across
turns (the call log is the concatenation of the per-turn batches of the
first n consumed replies, for some n at most the cap). -/
theorem claim_C2 (net : Net) (llm : Llm) (system_prompt user_message : String)
    (available_tools : List String) (flow : List (String × String))
    (private_key : Option String) (max_iterations : Nat) (res : AgentResult)
    (h : process_agent_conversation net llm system_prompt user_message available_tools flow
        private_key max_iterations = Except.ok res) :
    res.tool_calls.length = res.results.length
    ∧ List.Forall₂
        (fun c r => r.tool = c.tool ∧ execute_tool net c.tool c.parameters = Except.ok r)
        res.tool_calls res.results
    ∧ ∃ n, n ≤ max_iterations ∧ res.tool_calls =
        (List.range n).flatMap (fun i => (llm i).tool_calls.map (callRecOf private_key)) := by
  rw [process_eq_loop] at h
  obtain ⟨hf, k, hk, hcalls⟩ :=
    agentLoop_ok_spec net llm flow private_key max_iterations 0 _ _ _ _ h List.Forall₂.nil
  refine ⟨hf.length_eq, hf, k, hk, ?_⟩
  rw [hcalls, List.range_eq_range']
  simp

theorem claim_C2_witness :
    w2res.tool_calls.length = w2res.results.length
    ∧ List.Forall₂
        (fun c r => r.tool = c.tool ∧ execute_tool w2net c.tool c.parameters = Except.ok r)
        w2res.tool_calls w2res.results
    ∧ ∃ n, n ≤ 10 ∧ w2res.tool_calls =
        (List.range n).flatMap (fun i => (w2llm i).tool_calls.map (callRecOf none)) :=
  claim_C2 w2net w2llm "s" "u" [] [] none 10 w2res rfl

/-- Claim C4: for every edge list declaring A to B (that is, whose compiled
successor map sends A to B): whenever a model turn yields a non-empty batch
of tool calls whose last executed call is tool A, the driver appends a
directive message naming B (the forced-continuation directive, which
instructs an immediate call without confirmation) to the message history
after the batch is fully processed — the history becomes the history so far,
the assistant turn, one tool message per executed call, then the directive —
and before the next provider call is issued: the loop proceeds to the next
iteration, which hands exactly that history to the provider, with the
directive as its last message. agentStep is the loop body of
process_agent_conversation, handling one provider reply. -/
theorem claim_C4 (net : Net) (llm : Llm) (flow : List (String × String)) (pk : Option String)
    (reply : ModelReply) (messages : List Message) (calls : List ToolCallRec)
    (results : List ToolResult) (m : List Message) (c : List ToolCallRec)
    (r : List ToolResult) (A B : String) (tcLast : ToolCallReq) (fuel it : Nat)
    (hlast : reply.tool_calls.getLast? = some tcLast) (hA : tcLast.name = A)
    (hAB : plookup flow A = some B)
    (hstep : agentStep net flow pk reply messages calls results =
      Except.ok (StepOut.next m c r)) :
    (∃ tms, m = messages ++ [Message.assistant reply.content reply.tool_calls] ++ tms
        ++ [Message.system (continuationDirective B)]
      ∧ tms.length = reply.tool_calls.length
      ∧ ∀ x ∈ tms, ∃ i s, x = Message.tool i s)
    ∧ (llm it = reply →
        agentLoop net llm flow pk (fuel + 1) it messages calls results =
          agentLoop net llm flow pk fuel (it + 1) m c r) := by
  obtain ⟨hne, hc, hr, hall, tcLast2, hlast2, hcase⟩ :=
    agentStep_next_core _ _ _ _ _ _ _ _ _ _ hstep
  have heq : tcLast = tcLast2 := Option.some_injective _ (hlast.symm.trans hlast2)
  subst heq
  rcases hcase with ⟨nt, hnt, hm⟩ | ⟨hnone, _⟩
  · rw [hA] at hnt
    have hntB : nt = B := Option.some_injective _ (hnt.symm.trans hAB)
    subst hntB
    constructor
    · refine ⟨reply.tool_calls.map (toolMsgOf net pk), hm, by simp, ?_⟩
      intro x hx
      obtain ⟨tc, _, rfl⟩ := List.mem_map.mp hx
      exact ⟨tc.id, renderToolResult (resultOf net pk tc), rfl⟩
    · intro hrep
      simp [agentLoop, hrep, hstep]
  · rw [hA] at hnone
    rw [hnone] at hAB
    cases hAB

theorem claim_C4_witness :
    (∃ tms, ([Message.assistant none [⟨"1", "fetch_price", some [("query", "mnt")]⟩],
        Message.tool "1" "\x7b\"success\": true, \"tool\": \"fetch_price\", \"result\": 1\x7d",
        Message.system (continuationDirective "get_balance")] : List Message)
        = [] ++ [Message.assistant w4reply.content w4reply.tool_calls] ++ tms
          ++ [Message.system (continuationDirective "get_balance")]
      ∧ tms.length = w4reply.tool_calls.length
      ∧ ∀ x ∈ tms, ∃ i s, x = Message.tool i s)
    ∧ (w4llm 0 = w4reply →
        agentLoop w4net w4llm w4flow none 3 0 [] [] [] =
          agentLoop w4net w4llm w4flow none 2 1
            [Message.assistant none [⟨"1", "fetch_price", some [("query", "mnt")]⟩],
             Message.tool "1" "\x7b\"success\": true, \"tool\": \"fetch_price\", \"result\": 1\x7d",
             Message.system (continuationDirective "get_balance")]
            [⟨"fetch_price", [("query", "mnt")]⟩]
            [⟨true, "fetch_price", some "1", none⟩]) :=
  claim_C4 w4net w4llm w4flow none w4reply [] [] []
    [Message.assistant none [⟨"1", "fetch_price", some [("query", "mnt")]⟩],
     Message.tool "1" "\x7b\"success\": true, \"tool\": \"fetch_price\", \"result\": 1\x7d",
     Message.system (continuationDirective "get_balance")]
    [⟨"fetch_price", [("query", "mnt")]⟩]
    [⟨true, "fetch_price", some "1", none⟩]
    "fetch_price" "get_balance" ⟨"1", "fetch_price", some [("query", "mnt")]⟩ 2 0
    rfl rfl (by decide) rfl

/-- Claim C10: after each fully processed batch, the forced-continuation
directive is appended if and only if the identifier of the last executed
tool of the batch is a key of the successor map; the success flag of that
tool result is never consulted (the statement quantifies over every network
oracle, failing ones included, and its witness exercises a failing source),
and a successor declared for a non-last tool of the batch triggers no
directive (the condition inspects only the last call). -/
theorem claim_C10 (net : Net) (flow : List (String × String)) (pk : Option String)
    (reply : ModelReply) (messages : List Message) (calls : List ToolCallRec)
    (results : List ToolResult) (m : List Message) (c : List ToolCallRec)
    (r : List ToolResult) (tcLast : ToolCallReq)
    (hlast : reply.tool_calls.getLast? = some tcLast)
    (hstep : agentStep net flow pk reply messages calls results =
      Except.ok (StepOut.next m c r)) :
    ((∃ nt, m.getLast? = some (Message.system (continuationDirective nt)))
      ↔ (plookup flow tcLast.name).isSome = true)
    ∧ ∀ nt, plookup flow tcLast.name = some nt →
        m.getLast? = some (Message.system (continuationDirective nt)) := by
  obtain ⟨hne, _, _, _, tcLast2, hlast2, hcase⟩ :=
    agentStep_next_core _ _ _ _ _ _ _ _ _ _ hstep
  have heq : tcLast = tcLast2 := Option.some_injective _ (hlast.symm.trans hlast2)
  subst heq
  rcases hcase with ⟨nt, hnt, hm⟩ | ⟨hnone, hm⟩
  · have hlastm : m.getLast? = some (Message.system (continuationDirective nt)) := by
      rw [hm]
      exact List.getLast?_concat _
    constructor
    · constructor
      · intro _
        rw [hnt]
        rfl
      · intro _
        exact ⟨nt, hlastm⟩
    · intro nt2 hnt2
      rw [hnt] at hnt2
      obtain rfl := Option.some_injective _ hnt2.symm
      exact hlastm
  · have hlastm : m.getLast? = some (toolMsgOf net pk tcLast) := by
      rw [hm, List.getLast?_append, List.getLast?_map, hlast]
      rfl
    constructor
    · constructor
      · rintro ⟨nt, hnt⟩
        rw [hlastm] at hnt
        have hx := Option.some_injective _ hnt
        simp [toolMsgOf] at hx
      · intro hsome
        rw [hnone] at hsome
        cases hsome
    · intro nt2 hnt2
      rw [hnone] at hnt2
      cases hnt2

theorem claim_C10_witness :
    ((∃ nt, ([Message.assistant none [⟨"2", "fetch_price", some [("query", "mnt")]⟩],
        Message.tool "2" "\x7b\"success\": false, \"tool\": \"fetch_price\", \"error\": \"timeout\"\x7d",
        Message.system (continuationDirective "get_balance")] : List Message).getLast?
          = some (Message.system (continuationDirective nt)))
      ↔ (plookup w10flow (⟨"2", "fetch_price", some [("query", "mnt")]⟩ : ToolCallReq).name).isSome = true)
    ∧ ∀ nt, plookup w10flow (⟨"2", "fetch_price", some [("query", "mnt")]⟩ : ToolCallReq).name = some nt →
        ([Message.assistant none [⟨"2", "fetch_price", some [("query", "mnt")]⟩],
          Message.tool "2" "\x7b\"success\": false, \"tool\": \"fetch_price\", \"error\": \"timeout\"\x7d",
          Message.system (continuationDirective "get_balance")] : List Message).getLast?
          = some (Message.system (continuationDirective nt)) :=
  claim_C10 w10net w10flow none w10reply [] [] []
    [Message.assistant none [⟨"2", "fetch_price", some [("query", "mnt")]⟩],
     Message.tool "2" "\x7b\"success\": false, \"tool\": \"fetch_price\", \"error\": \"timeout\"\x7d",
     Message.system (continuationDirective "get_balance")]
    [⟨"fetch_price", [("query", "mnt")]⟩]
    [⟨false, "fetch_price", none, some "timeout"⟩]
    ⟨"2", "fetch_price", some [("query", "mnt")]⟩
    rfl rfl

/-- Claim C6: for every tool invocation whose downstream HTTP call fails at
transport level (timeout, connection refused, non-2xx status — all surfacing
as a RequestException), execute_tool returns a result record with
success false and the human-readable error string, raising nothing past its
boundary (it returns Except.ok), and the conversation driver proceeds to the
next provider turn with that failed result appended instead of aborting: a
run whose first reply calls the tool and whose second reply is a plain
answer returns normally with the failed record in its result log. -/
theorem claim_C6 (net : Net) (t : String) (td : ToolDef) (params : Params) (msg : String)
    (ht : lookupTD t = some td)
    (hnet : ∀ u mth b, net u mth b = HttpOutcome.err msg) :
    execute_tool net t params = Except.ok ⟨false, t, none, some msg⟩
    ∧ ∀ (llm : Llm) (sys um : String) (tools : List String) (flow : List (String × String))
        (cid : String) (args : Params) (c0 : Option String) (final : String),
        llm 0 = ⟨c0, [⟨cid, t, some args⟩]⟩ → llm 1 = ⟨some final, []⟩ →
        ∃ res, process_agent_conversation net llm sys um tools flow none 10 = Except.ok res
          ∧ res.results = [⟨false, t, none, some msg⟩]
          ∧ res.agent_response = some final := by
  have hex : ∀ p : Params, execute_tool net t p = Except.ok ⟨false, t, none, some msg⟩ := by
    intro p
    rcases hre : resolve_endpoint td.endpoint td.method p with ⟨ep, ps⟩
    rcases lookupTD_method t td ht with hm | hm <;> rw [hm] at hre <;>
      simp [execute_tool, ht, hre, hm, hnet]
  refine ⟨hex params, ?_⟩
  intro llm sys um tools flow cid args c0 final h0 h1
  have key : ∀ (f : Nat) (M : List Message), ∃ Mfin,
      agentLoop net llm flow none (f + 2) 0 M [] [] =
        Except.ok ⟨some final, [⟨t, args⟩], [⟨false, t, none, some msg⟩], Mfin⟩ := by
    intro f M
    rcases hfl : plookup flow t with _ | nt
    · refine ⟨M ++ [Message.assistant c0 [⟨cid, t, some args⟩]]
        ++ [Message.tool cid (renderToolResult ⟨false, t, none, some msg⟩)], ?_⟩
      have hstep0 : agentStep net flow none (llm 0) M [] [] =
          Except.ok (StepOut.next
            (M ++ [Message.assistant c0 [⟨cid, t, some args⟩]]
              ++ [Message.tool cid (renderToolResult ⟨false, t, none, some msg⟩)])
            [⟨t, args⟩] [⟨false, t, none, some msg⟩]) := by
        rw [h0]
        simp [agentStep, processBatch, resolveArgs, hex, hfl]
      have hstep1 : ∀ (M2 : List Message),
          agentStep net flow none (llm 1) M2 [⟨t, args⟩] [⟨false, t, none, some msg⟩] =
            Except.ok (StepOut.done
              ⟨some final, [⟨t, args⟩], [⟨false, t, none, some msg⟩], M2⟩) := by
        intro M2
        rw [h1]
        simp [agentStep]
      show agentLoop net llm flow none (f + 1 + 1) 0 M [] [] = _
      simp [agentLoop, hstep0, hstep1]
    · refine ⟨M ++ [Message.assistant c0 [⟨cid, t, some args⟩]]
        ++ [Message.tool cid (renderToolResult ⟨false, t, none, some msg⟩)]
        ++ [Message.system (continuationDirective nt)], ?_⟩
      have hstep0 : agentStep net flow none (llm 0) M [] [] =
          Except.ok (StepOut.next
            (M ++ [Message.assistant c0 [⟨cid, t, some args⟩]]
              ++ [Message.tool cid (renderToolResult ⟨false, t, none, some msg⟩)]
              ++ [Message.system (continuationDirective nt)])
            [⟨t, args⟩] [⟨false, t, none, some msg⟩]) := by
        rw [h0]
        simp [agentStep, processBatch, resolveArgs, hex, hfl]
      have hstep1 : ∀ (M2 : List Message),
          agentStep net flow none (llm 1) M2 [⟨t, args⟩] [⟨false, t, none, some msg⟩] =
            Except.ok (StepOut.done
              ⟨some final, [⟨t, args⟩], [⟨false, t, none, some msg⟩], M2⟩) := by
        intro M2
        rw [h1]
        simp [agentStep]
      show agentLoop net llm flow none (f + 1 + 1) 0 M [] [] = _
      simp [agentLoop, hstep0, hstep1]
  obtain ⟨Mfin, hrun⟩ := key 8
    [Message.system (if strTruthy (none : Option String) = true then
        sys ++ "\n\nCONTEXT: User\x27s private key is available: "
          ++ (none : Option String).getD ""
      else sys),
     Message.user um]
  refine ⟨⟨some final, [⟨t, args⟩], [⟨false, t, none, some msg⟩], Mfin⟩, ?_, rfl, rfl⟩
  rw [process_eq_loop]
  exact hrun

theorem claim_C6_witness :
    execute_tool w6net "get_balance" [("address", "0xabc")] =
      Except.ok ⟨false, "get_balance", none, some "timeout"⟩
    ∧ ∃ res, process_agent_conversation w6net w6llm "s" "u" ["get_balance"] [] none 10 =
        Except.ok res
        ∧ res.results = [⟨false, "get_balance", none, some "timeout"⟩]
        ∧ res.agent_response = some "done" := by
  have h := claim_C6 w6net "get_balance"
    ⟨"get_balance", "Get MNT balance of a wallet address. Requires only the wallet address.",
     ["address"], ["address"],
     "https://mantlebackend-739298578243.us-central1.run.app/balance/\x7baddress\x7d", "GET"⟩
    [("address", "0xabc")] "timeout" (by decide) (fun _ _ _ => rfl)
  exact ⟨h.1, h.2 w6llm "s" "u" ["get_balance"] [] "3" [("address", "0xabc")] none "done" rfl rfl⟩

/-- Counterexample to claim C5 as stated: on a reply whose tool-call
arguments are not valid JSON, the conversation is NOT continued with a failed
per-call result — the decode error escapes the loop and the driver aborts
with no result value at all. -/
theorem claim_C5_counterexample :
    process_agent_conversation c5net c5llm "s" "u" ["fetch_price"] [] none 10 =
      Except.error "JSONDecodeError: Expecting value" := rfl

/-- Claim C5 amended: transport-level failures inside the loop are recorded
as failed per-call results and the loop continues (see claim C6), but a tool
call whose model-emitted arguments are not valid JSON is NOT treated as a
per-call failure: the json.loads exception escapes the loop, aborts the whole
conversation whatever the remaining fuel, secret, or flow, and surfaces
through the endpoint as a request-level 500 error. -/
theorem claim_C5_amended (net : Net) (llm : Llm) (tc : ToolCallReq) (rest : List ToolCallReq)
    (h0 : (llm 0).tool_calls = tc :: rest) (hmal : tc.args = none) :
    (∀ (sys um : String) (tools : List String) (flow : List (String × String))
        (pk : Option String) (cap : Nat), 0 < cap →
      process_agent_conversation net llm sys um tools flow pk cap =
        Except.error "JSONDecodeError: Expecting value")
    ∧ ∀ req : AgentRequest, firstUnknownTool (unique_tools req.tools) = none →
        chat_with_agent net llm req =
          Except.error ⟨500, "JSONDecodeError: Expecting value"⟩ := by
  have hbatch : ∀ (pk : Option String) (M : List Message) (calls : List ToolCallRec)
      (results : List ToolResult),
      processBatch net pk (tc :: rest) M calls results =
        Except.error "JSONDecodeError: Expecting value" := by
    intro pk M calls results
    simp [processBatch, hmal]
  have hstep : ∀ (flow : List (String × String)) (pk : Option String) (M : List Message),
      agentStep net flow pk (llm 0) M [] [] =
        Except.error "JSONDecodeError: Expecting value" := by
    intro flow pk M
    simp [agentStep, h0, hbatch]
  have hproc : ∀ (sys um : String) (tools : List String) (flow : List (String × String))
      (pk : Option String) (cap : Nat), 0 < cap →
      process_agent_conversation net llm sys um tools flow pk cap =
        Except.error "JSONDecodeError: Expecting value" := by
    intro sys um tools flow pk cap hcap
    obtain ⟨c, rfl⟩ : ∃ c, cap = c + 1 := ⟨cap - 1, by omega⟩
    rw [process_eq_loop]
    simp [agentLoop, hstep]
  refine ⟨hproc, ?_⟩
  intro req hval
  have hp := hproc (build_system_prompt req.tools) req.user_message
    (unique_tools req.tools) (tool_flow req.tools) req.private_key 10 (by omega)
  simp [chat_with_agent, chatBody, hval, hp]

theorem claim_C5_amended_witness :
    (process_agent_conversation c5net c5llm "s" "u" ["fetch_price"] [] none 10 =
      Except.error "JSONDecodeError: Expecting value")
    ∧ chat_with_agent c5net c5llm ⟨[⟨"fetch_price", none⟩], "u", none⟩ =
        Except.error ⟨500, "JSONDecodeError: Expecting value"⟩ :=
  ⟨(claim_C5_amended c5net c5llm ⟨"1", "fetch_price", none⟩ [] rfl rfl).1
      "s" "u" ["fetch_price"] [] none 10 (by omega),
   (claim_C5_amended c5net c5llm ⟨"1", "fetch_price", none⟩ [] rfl rfl).2
      ⟨[⟨"fetch_price", none⟩], "u", none⟩ (by decide)⟩

/-- Claim C3, settled as a code bug: the request is indeed rejected before
any provider or downstream call is made (the outcome is the same for every
network and provider oracle), and the rejection names the unknown tool, BUT
it is not a client error: the HTTPException(400) raised by the validation
loop is itself an Exception, so the blanket handler of chat_with_agent
catches it and re-raises HTTPException(500, str(e)) — the caller receives a
server error whose detail text is the 400 status and the message. -/
theorem claim_C3_bug (net : Net) (llm : Llm) :
    chat_with_agent net llm c3request =
      Except.error ⟨500, "400: Unknown tool: foo"⟩ := rfl

/-- Counterexample to claim C7 as stated: an edge whose declared successor is
the empty string is skipped by the Python truthiness test, so (1) the
successor map keeps the earlier binding instead of the successor of the last
edge naming the source, and (2) the available-tool set omits the declared
empty successor identifier. -/
theorem claim_C7_counterexample :
    plookup (tool_flow [⟨"transfer", some "swap"⟩, ⟨"transfer", some ""⟩]) "transfer"
      = some "swap"
    ∧ lastDeclaredSuccessor [⟨"transfer", some "swap"⟩, ⟨"transfer", some ""⟩] "transfer"
      = some ""
    ∧ some "swap" ≠ (some "" : Option String)
    ∧ unique_tools [⟨"transfer", some ""⟩] = ["transfer"]
    ∧ ¬ ("" ∈ unique_tools [⟨"transfer", some ""⟩])
    ∧ (∃ c ∈ [(⟨"transfer", some ""⟩ : ToolConnection)], c.next_tool = some "") := by
  decide

/-- Claim C7 amended: the flow compiler produces (1) an available-tool list
that is duplicate-free and whose members are exactly the union of all source
identifiers and all NON-EMPTY declared successor identifiers (an empty-string
successor is treated as undeclared, Python truthiness), and (2) a successor
map sending each source to the successor of the last edge in list order that
names that source with a non-empty declared successor (last write wins). -/
theorem claim_C7_amended : ∀ conns : List ToolConnection,
    (∀ t, t ∈ unique_tools conns ↔
      ∃ c ∈ conns, c.tool = t ∨ (c.next_tool = some t ∧ ¬ t = ""))
    ∧ (unique_tools conns).Nodup
    ∧ ∀ t, plookup (tool_flow conns) t = lastTruthySuccessor conns t := by
  intro conns
  refine ⟨?_, ?_, tool_flow_spec conns⟩
  · intro t
    have h := buildToolsLoop_mem_inv t conns [] []
    simpa using h
  · exact buildToolsLoop_nodup conns [] [] (by simp)

/-- Counterexample to claim C8 as stated: for a GET invocation with a path
substitution, the code clears the WHOLE outgoing parameter mapping, not just
the substituted field: a supplied extra field does not remain. -/
theorem claim_C8_counterexample :
    resolve_endpoint
        "https://mantlebackend-739298578243.us-central1.run.app/balance/\x7baddress\x7d"
        "GET" [("address", "0xabc"), ("foo", "1")]
      = ("https://mantlebackend-739298578243.us-central1.run.app/balance/0xabc", [])
    ∧ eraseKey [("address", "0xabc"), ("foo", "1")] "address" = [("foo", "1")]
    ∧ ([] : Params) ≠ [("foo", "1")] := by decide

/-- Claim C8 amended: for every tool whose catalog invocation target contains
the path placeholder and every parameter mapping supplying the address,
execute_tool substitutes the value into the URL; and when the verb is GET,
the ENTIRE outgoing parameter mapping is cleared (the substituted field and
every other supplied field), and the request is dispatched to the substituted
URL with no body at all — so in particular the value is never sent both as a
path segment and as a body field. -/
theorem claim_C8_amended (net : Net) (t : String) (td : ToolDef) (params : Params)
    (addr : String) (ht : lookupTD t = some td) (hph : strHas td.endpoint addrPat = true)
    (hm : td.method = "GET") (haddr : plookup params "address" = some addr) :
    resolve_endpoint td.endpoint td.method params = (strReplace td.endpoint addrPat addr, [])
    ∧ execute_tool net t params =
        (match net (strReplace td.endpoint addrPat addr) "GET" none with
         | HttpOutcome.ok body => Except.ok ⟨true, t, some body, none⟩
         | HttpOutcome.err e => Except.ok ⟨false, t, none, some e⟩) := by
  have hre : resolve_endpoint td.endpoint td.method params =
      (strReplace td.endpoint addrPat addr, []) := by
    rw [hm]
    simp [resolve_endpoint, hph, haddr]
  refine ⟨hre, ?_⟩
  have hre2 := hre
  rw [hm] at hre2
  rcases hnn : net (strReplace td.endpoint addrPat addr) "GET" none with b | e <;>
    simp [execute_tool, ht, hre2, hm, hnn]

theorem claim_C8_amended_witness :
    resolve_endpoint w8td.endpoint w8td.method [("address", "0xabc")] =
      (strReplace w8td.endpoint addrPat "0xabc", [])
    ∧ execute_tool w8net "get_balance" [("address", "0xabc")] =
        (match w8net (strReplace w8td.endpoint addrPat "0xabc") "GET" none with
         | HttpOutcome.ok body => Except.ok ⟨true, "get_balance", some body, none⟩
         | HttpOutcome.err e => Except.ok ⟨false, "get_balance", none, some e⟩) :=
  claim_C8_amended w8net "get_balance" w8td [("address", "0xabc")] "0xabc"
    (by decide) (by decide) rfl rfl

/-- Counterexample to claim C9 as stated: the caller supplies the secret
SECRETKEY, the model (c9llm, fully concrete and inspectable) never emits it,
and yet the tool-call log of the returned aggregate contains it: the
injection of lines 372 to 375 happens before the record is appended at line
377, so the injected secret is written to the externally returned log. -/
theorem claim_C9_counterexample :
    (process_agent_conversation c9net c9llm "s" "u" ["transfer"] []
        (some "SECRETKEY") 10).toOption.map (fun r => r.tool_calls)
      = some [⟨"transfer",
          [("toAddress", "0xB"), ("amount", "5"), ("tokenAddress", "0xT"),
           ("privateKey", "SECRETKEY")]⟩] := rfl

/-- Claim C9 amended: the tool-call log records the parameters AFTER secret
injection: whenever the caller supplies a non-empty secret and the model
requests a catalog tool declaring a privateKey field with arguments lacking
that field, the corresponding entry of the returned tool-call log maps
privateKey to the caller-supplied secret (shown for the first requested
call of the run). -/
theorem claim_C9_amended (net : Net) (llm : Llm) (sys um : String) (tools : List String)
    (flow : List (String × String)) (k : String) (cap : Nat) (cid t : String) (td : ToolDef)
    (args : Params) (rest : List ToolCallReq) (res : AgentResult)
    (hk : ¬ k = "") (ht : lookupTD t = some td)
    (hprop : "privateKey" ∈ td.properties)
    (hargs : hasKey args "privateKey" = false)
    (hcap : 0 < cap)
    (h0 : (llm 0).tool_calls = ⟨cid, t, some args⟩ :: rest)
    (hok : process_agent_conversation net llm sys um tools flow (some k) cap = Except.ok res) :
    res.tool_calls.head? = some ⟨t, args ++ [("privateKey", k)]⟩ := by
  obtain ⟨c, rfl⟩ : ∃ c, cap = c + 1 := ⟨cap - 1, by omega⟩
  rw [process_eq_loop] at hok
  revert hok
  generalize [Message.system (if strTruthy (some k) = true then
      sys ++ "\n\nCONTEXT: User\x27s private key is available: " ++ (some k).getD ""
    else sys), Message.user um] = M0
  intro hok
  simp only [agentLoop] at hok
  rcases hstep : agentStep net flow (some k) (llm 0) M0 [] [] with e | out <;>
    rw [hstep] at hok
  · cases hok
  · rcases out with r | ⟨m2, c2, r2⟩
    · obtain ⟨hemp, _⟩ := agentStep_done _ _ _ _ _ _ _ _ hstep
      rw [h0] at hemp
      cases hemp
    · obtain ⟨_, hc2, _, _, _⟩ := agentStep_next_core _ _ _ _ _ _ _ _ _ _ hstep
      have hres : resolvedArgsT (some k) ⟨cid, t, some args⟩ = args ++ [("privateKey", k)] := by
        simp [resolvedArgsT, resolveArgs, hk, ht, hprop, hargs]
      obtain ⟨cs, rs, hpre, _⟩ := agentLoop_prefix net llm flow (some k) c 1 m2 c2 r2 res hok
      rw [hpre, hc2, h0]
      simp [callRecOf, hres]

theorem claim_C9_amended_witness :
    c9res.tool_calls.head? = some ⟨"transfer",
      [("toAddress", "0xB"), ("amount", "5"), ("tokenAddress", "0xT"),
       ("privateKey", "SECRETKEY")]⟩ :=
  claim_C9_amended c9net c9llm "s" "u" ["transfer"] [] "SECRETKEY" 10 "9" "transfer"
    ⟨"transfer",
     "Transfer tokens from one address to another. Requires privateKey, toAddress, amount, and tokenAddress.",
     ["privateKey", "toAddress", "amount", "tokenAddress"],
     ["privateKey", "toAddress", "amount", "tokenAddress"],
     "https://mantlebackend-739298578243.us-central1.run.app/transfer", "POST"⟩
    [("toAddress", "0xB"), ("amount", "5"), ("tokenAddress", "0xT")] [] c9res
    (by decide) (by decide) (by decide) (by decide) (by omega) rfl rfl
